import Mathlib

/-!
Shallow embedding of `src/feature_alignment/model/tdpo.py`.

Tensors are embedded as (nested) lists of real numbers; elementwise tensor
operations become `List.zipWith` / `List.map`.  Gradient tracking is embedded
with forward-mode dual numbers: a tracked scalar `D` carries a value and the
derivative of that value with respect to a chosen input direction.  PyTorch's
`detach()` keeps the value and cuts the derivative, which is exactly
`D.detach` below.  `softmax` / `log_softmax` / `logsigmoid` are embedded in
exact real arithmetic.
-/

/-- A gradient-tracked scalar: a value together with the derivative of that
value in a fixed input direction (forward-mode differentiation). -/
structure D where
  val : ℝ
  grad : ℝ

/-- The zero dual scalar, used as a default for list lookups. -/
def D0 : D := ⟨0, 0⟩

instance : Add D := ⟨fun a b => ⟨a.val + b.val, a.grad + b.grad⟩⟩

instance : Sub D := ⟨fun a b => ⟨a.val - b.val, a.grad - b.grad⟩⟩

instance : Neg D := ⟨fun a => ⟨-a.val, -a.grad⟩⟩

/-- `tensor.detach()`: same value, removed from the gradient graph. -/
def D.detach (a : D) : D := ⟨a.val, 0⟩

/-- Multiplication of a tracked scalar by a plain (non-tracked) scalar,
as in `beta * logits` where `beta` is a python float. -/
def D.smul (c : ℝ) (a : D) : D := ⟨c * a.val, c * a.grad⟩

/-- The logistic sigmoid. -/
noncomputable def sigmoid (x : ℝ) : ℝ := 1 / (1 + Real.exp (-x))

/-- `F.logsigmoid`: the pointwise log of the logistic sigmoid,
`F.logsigmoid x = -log (1 + exp (-x))`. -/
noncomputable def F.logsigmoid (x : ℝ) : ℝ := -Real.log (1 + Real.exp (-x))

/-- `F.logsigmoid` on a tracked scalar; the derivative of `logsigmoid`
is `1 - sigmoid`. -/
noncomputable def D.logsigmoid (a : D) : D :=
  ⟨F.logsigmoid a.val, (1 - sigmoid a.val) * a.grad⟩

namespace TDPO1

/-- `TDPO1Model.loss` (tdpo.py lines 60-94).  Inputs are batch vectors of
tracked scalars; `beta` is `self.config.loss.beta`.  Returns
`(losses, chosen_rewards, rejected_rewards)`. -/
noncomputable def loss (beta : ℝ)
    (chosen_logps_margin rejected_logps_margin
     chosen_position_kl rejected_position_kl : List D) :
    List D × List D × List D :=
  let chosen_values := List.zipWith (· + ·) chosen_logps_margin chosen_position_kl
  let rejected_values := List.zipWith (· + ·) rejected_logps_margin rejected_position_kl
  let chosen_rejected_logps_margin :=
    List.zipWith (· - ·) chosen_logps_margin rejected_logps_margin
  let logits := List.zipWith (· - ·) chosen_rejected_logps_margin
    (List.zipWith (· - ·) rejected_position_kl chosen_position_kl)
  let losses := logits.map (fun x => -(D.logsigmoid (D.smul beta x)))
  let chosen_rewards := (chosen_values.map D.detach).map (D.smul beta)
  let rejected_rewards := (rejected_values.map D.detach).map (D.smul beta)
  (losses, chosen_rewards, rejected_rewards)

end TDPO1

namespace TDPO2

/-- `TDPO2Model.loss` (tdpo.py lines 172-206).  Identical to the V1 loss
except that the logit subtracts `alpha * (rejected_position_kl -
chosen_position_kl.detach())`. -/
noncomputable def loss (alpha beta : ℝ)
    (chosen_logps_margin rejected_logps_margin
     chosen_position_kl rejected_position_kl : List D) :
    List D × List D × List D :=
  let chosen_values := List.zipWith (· + ·) chosen_logps_margin chosen_position_kl
  let rejected_values := List.zipWith (· + ·) rejected_logps_margin rejected_position_kl
  let chosen_rejected_logps_margin :=
    List.zipWith (· - ·) chosen_logps_margin rejected_logps_margin
  let logits := List.zipWith (· - ·) chosen_rejected_logps_margin
    ((List.zipWith (· - ·) rejected_position_kl
        (chosen_position_kl.map D.detach)).map (D.smul alpha))
  let losses := logits.map (fun x => -(D.logsigmoid (D.smul beta x)))
  let chosen_rewards := (chosen_values.map D.detach).map (D.smul beta)
  let rejected_rewards := (rejected_values.map D.detach).map (D.smul beta)
  (losses, chosen_rewards, rejected_rewards)

/-- Modelled from the spec (section 8, round trip on variant selection): the
V2 loss with the `detach()` call on `chosen_position_kl` removed.  This
hypothetical variant is not in the source; the spec's round-trip scenario
compares V1 against V2 with `alpha = 1` and the detachment removed. -/
noncomputable def loss_without_detach (alpha beta : ℝ)
    (chosen_logps_margin rejected_logps_margin
     chosen_position_kl rejected_position_kl : List D) :
    List D × List D × List D :=
  let chosen_values := List.zipWith (· + ·) chosen_logps_margin chosen_position_kl
  let rejected_values := List.zipWith (· + ·) rejected_logps_margin rejected_position_kl
  let chosen_rejected_logps_margin :=
    List.zipWith (· - ·) chosen_logps_margin rejected_logps_margin
  let logits := List.zipWith (· - ·) chosen_rejected_logps_margin
    ((List.zipWith (· - ·) rejected_position_kl
        chosen_position_kl).map (D.smul alpha))
  let losses := logits.map (fun x => -(D.logsigmoid (D.smul beta x)))
  let chosen_rewards := (chosen_values.map D.detach).map (D.smul beta)
  let rejected_rewards := (rejected_values.map D.detach).map (D.smul beta)
  (losses, chosen_rewards, rejected_rewards)

end TDPO2

/-- `softmax` over the vocabulary dimension, applied to one vocab row. -/
noncomputable def softmaxRow (xs : List ℝ) : List ℝ :=
  xs.map (fun x => Real.exp x / (xs.map Real.exp).sum)

/-- `log_softmax` over the vocabulary dimension, applied to one vocab row:
`log_softmax x = x - log (sum (exp xs))`. -/
noncomputable def log_softmaxRow (xs : List ℝ) : List ℝ :=
  xs.map (fun x => x - Real.log ((xs.map Real.exp).sum))

/-- Elementwise multiplication of a real tensor entry by a boolean mask entry
(`tensor * loss_mask` in torch promotes the mask to 0 or 1). -/
def bmul (m : Bool) (x : ℝ) : ℝ := if m then x else 0

/-- `loss_mask = (labels != -100)`, for one (already shifted) label row. -/
def loss_mask_row (labels : List ℤ) : List Bool :=
  labels.map (fun l => decide (l ≠ -100))

/-- `loss_mask.sum(-1)` as a real number, for one sequence row. -/
def mask_sum (mask : List Bool) : ℝ :=
  (mask.map (fun m => if m then (1 : ℝ) else 0)).sum

/-- Body of `tdpo_get_batch_logps` (tdpo.py lines 33-55) at one batch row,
after the teacher-forcing shift: `logits` and `reference_logits` are the
remaining seq x vocab rows, `labels0` the shifted label row. -/
noncomputable def row_core (logits reference_logits : List (List ℝ))
    (labels0 : List ℤ) (average_log_prob : Bool) : ℝ × ℝ × ℝ :=
  let loss_mask := loss_mask_row labels0
  let labels := labels0.map (fun l => if l = -100 then 0 else l)
  let vocab_logps := logits.map log_softmaxRow
  let reference_vocab_ps := reference_logits.map softmaxRow
  let reference_vocab_logps := reference_vocab_ps.map (List.map Real.log)
  let per_position_kl := List.zipWith
    (fun ps diffs => (List.zipWith (fun a b => a * b) ps diffs).sum)
    reference_vocab_ps
    (List.zipWith (List.zipWith (fun a b => a - b)) reference_vocab_logps vocab_logps)
  let per_token_logps := List.zipWith bmul loss_mask
    (List.zipWith (fun (row : List ℝ) (l : ℤ) => row.getD l.toNat 0) vocab_logps labels)
  let per_reference_token_logps := List.zipWith bmul loss_mask
    (List.zipWith (fun (row : List ℝ) (l : ℤ) => row.getD l.toNat 0)
      reference_vocab_logps labels)
  let logps_margin := List.zipWith (fun a b => a - b)
    per_token_logps per_reference_token_logps
  if average_log_prob then
    ((List.zipWith bmul loss_mask logps_margin).sum / mask_sum loss_mask,
     (List.zipWith bmul loss_mask per_position_kl).sum / mask_sum loss_mask,
     (List.zipWith bmul loss_mask per_token_logps).sum / mask_sum loss_mask)
  else
    ((List.zipWith bmul loss_mask logps_margin).sum,
     (List.zipWith bmul loss_mask per_position_kl).sum,
     (List.zipWith bmul loss_mask per_token_logps).sum)

/-- `tdpo_get_batch_logps` after the teacher-forcing shift: maps `row_core`
over the batch dimension (every tensor operation in tdpo.py lines 33-55 acts
independently on each batch row). -/
noncomputable def tdpo_core (logits reference_logits : List (List (List ℝ)))
    (labels : List (List ℤ)) (average_log_prob : Bool) :
    List ℝ × List ℝ × List ℝ :=
  let rows := List.zipWith
    (fun (p : List (List ℝ) × List (List ℝ)) lab =>
      row_core p.1 p.2 lab average_log_prob)
    (logits.zip reference_logits) labels
  (rows.map (fun r => r.1), rows.map (fun r => r.2.1), rows.map (fun r => r.2.2))

/-- `tdpo_get_batch_logps` (tdpo.py lines 8-55), after its shape assertions:
the teacher-forcing shift `labels[:, 1:]`, `logits[:, :-1, :]`,
`reference_logits[:, :-1, :]` (lines 28-31) followed by the shifted body. -/
noncomputable def tdpo_get_batch_logps (logits reference_logits : List (List (List ℝ)))
    (labels : List (List ℤ)) (average_log_prob : Bool) :
    List ℝ × List ℝ × List ℝ :=
  tdpo_core (logits.map List.dropLast) (reference_logits.map List.dropLast)
    (labels.map (List.drop 1)) average_log_prob

/-- Failure of the shape assertions at tdpo.py lines 25-26. -/
inductive ShapeError
| mk

/-- The assertion `logits.shape[:-1] == labels.shape`: equal batch count and,
row by row, equal sequence length. -/
def shape_matches (logits : List (List (List ℝ))) (labels : List (List ℤ)) : Bool :=
  logits.length == labels.length
    && (List.zipWith (fun (r : List (List ℝ)) (l : List ℤ) => r.length == l.length)
        logits labels).all (fun b => b)

/-- `tdpo_get_batch_logps` with its two leading `assert` statements (tdpo.py
lines 25-26) made explicit: a `ShapeError` is raised before any computation
when a shape precondition fails. -/
noncomputable def tdpo_get_batch_logps_checked
    (logits reference_logits : List (List (List ℝ))) (labels : List (List ℤ))
    (average_log_prob : Bool) :
    Except ShapeError (List ℝ × List ℝ × List ℝ) :=
  if shape_matches logits labels && shape_matches reference_logits labels then
    Except.ok (tdpo_get_batch_logps logits reference_logits labels average_log_prob)
  else
    Except.error ShapeError.mk

namespace TDPO1

/-- `TDPO1Model.forward` (tdpo.py lines 96-133), with the two model forward
passes abstracted as the logits they produce (external collaborators): the
aligner is called with `average_log_prob=False` hardcoded, and its outputs
are split into chosen and rejected halves at
`n_chosen = batch['chosen_input_ids'].shape[0]`. -/
noncomputable def forward (all_logits reference_all_logits : List (List (List ℝ)))
    (concatenated_labels : List (List ℤ)) (n_chosen : ℕ)
    (average_log_prob : Bool) :
    List ℝ × List ℝ × List ℝ × List ℝ × List ℝ × List ℝ :=
  let r := tdpo_get_batch_logps all_logits reference_all_logits
    concatenated_labels false
  (r.1.take n_chosen, r.1.drop n_chosen,
   r.2.1.take n_chosen, r.2.1.drop n_chosen,
   r.2.2.take n_chosen, r.2.2.drop n_chosen)

/-- The reward-accuracy computation of `TDPO1Model.get_batch_metrics`
(tdpo.py lines 152-154):
`(chosen_rewards > rejected_rewards.flip(dims=[0])).float()`. -/
noncomputable def reward_accuracies (chosen_rewards rejected_rewards : List ℝ) : List ℝ :=
  List.zipWith (fun c r => if r < c then (1 : ℝ) else 0)
    chosen_rewards rejected_rewards.reverse

end TDPO1

theorem D.add_val (a b : D) : (a + b).val = a.val + b.val := rfl

theorem D.add_grad (a b : D) : (a + b).grad = a.grad + b.grad := rfl

theorem D.sub_val (a b : D) : (a - b).val = a.val - b.val := rfl

theorem D.sub_grad (a b : D) : (a - b).grad = a.grad - b.grad := rfl

theorem D.neg_val (a : D) : (-a).val = -a.val := rfl

theorem D.neg_grad (a : D) : (-a).grad = -a.grad := rfl

theorem D.detach_val (a : D) : a.detach.val = a.val := rfl

theorem D.detach_grad (a : D) : a.detach.grad = 0 := rfl

theorem D.smul_val (c : ℝ) (a : D) : (D.smul c a).val = c * a.val := rfl

theorem D.smul_grad (c : ℝ) (a : D) : (D.smul c a).grad = c * a.grad := rfl

theorem D.logsigmoid_val (a : D) : (D.logsigmoid a).val = F.logsigmoid a.val := rfl

theorem D.logsigmoid_grad (a : D) :
    (D.logsigmoid a).grad = (1 - sigmoid a.val) * a.grad := rfl

/-- Strict monotonicity of the log-sigmoid. -/
theorem F.logsigmoid_strictMono {x y : ℝ} (h : x < y) :
    F.logsigmoid x < F.logsigmoid y := by
  unfold F.logsigmoid
  have hexp : Real.exp (-y) < Real.exp (-x) := Real.exp_lt_exp.mpr (by linarith)
  have hy : (0:ℝ) < 1 + Real.exp (-y) := by positivity
  have := Real.log_lt_log hy (show 1 + Real.exp (-y) < 1 + Real.exp (-x) by linarith)
  linarith

/-- Every element of a `zipWith` comes from a pair of elements of the two
input lists. -/
theorem mem_zipWith {α β γ : Type} {f : α → β → γ} {as : List α} {bs : List β}
    {x : γ} (hx : x ∈ List.zipWith f as bs) :
    ∃ a b, a ∈ as ∧ b ∈ bs ∧ x = f a b := by
  induction as generalizing bs with
  | nil => simp at hx
  | cons a as ih =>
    cases bs with
    | nil => simp at hx
    | cons b bs =>
      rcases List.mem_cons.mp hx with h | h
      · exact ⟨a, b, List.mem_cons_self a as, List.mem_cons_self b bs, h⟩
      · obtain ⟨a2, b2, ha, hb, hab⟩ := ih h
        exact ⟨a2, b2, List.mem_cons_of_mem _ ha, List.mem_cons_of_mem _ hb, hab⟩

/-- Fusing a map on the left list with a `zipWith` of the same list. -/
theorem zipWith_map_left_zipWith {α β γ δ ε : Type}
    (f : γ → δ → ε) (g : α → γ) (h : α → β → δ) (as : List α) (bs : List β) :
    List.zipWith f (as.map g) (List.zipWith h as bs)
      = List.zipWith (fun a b => f (g a) (h a b)) as bs := by
  induction as generalizing bs with
  | nil => simp
  | cons a as ih =>
    cases bs with
    | nil => simp
    | cons b bs => simp [ih]

/-- Elementwise comparison of `zipWith` sums. -/
theorem sum_zipWith_le {α β : Type} (f g : α → β → ℝ)
    (h : ∀ a b, f a b ≤ g a b) :
    ∀ (as : List α) (bs : List β),
      (List.zipWith f as bs).sum ≤ (List.zipWith g as bs).sum := by
  intro as
  induction as with
  | nil => intro bs; simp
  | cons a as ih =>
    intro bs
    cases bs with
    | nil => simp
    | cons b bs =>
      simp only [List.zipWith, List.sum_cons]
      exact add_le_add (h a b) (ih bs)

/-- A `zipWith` of differences over equal-length lists sums to the difference
of the mapped sums. -/
theorem sum_zipWith_sub {α β : Type} (f : α → ℝ) (g : β → ℝ) :
    ∀ (as : List α) (bs : List β), as.length = bs.length →
      (List.zipWith (fun a b => f a - g b) as bs).sum
        = (as.map f).sum - (bs.map g).sum := by
  intro as
  induction as with
  | nil =>
    intro bs hlen
    cases bs with
    | nil => simp
    | cons b bs => simp at hlen
  | cons a as ih =>
    intro bs hlen
    cases bs with
    | nil => simp at hlen
    | cons b bs =>
      simp only [List.zipWith, List.sum_cons, List.map, ih bs (by simpa using hlen)]
      ring

/-- The sum of `exp x / c` over a row is the sum of `exp x` divided by `c`. -/
theorem sum_map_exp_div (xs : List ℝ) (c : ℝ) :
    (xs.map (fun x => Real.exp x / c)).sum = (xs.map Real.exp).sum / c := by
  induction xs with
  | nil => simp
  | cons x xs ih =>
    simp only [List.map, List.sum_cons, ih]
    ring

/-- Per-vocabulary-entry Gibbs bound: with positive normalizers, the masked
KL summand dominates the probability difference. -/
theorem gibbs_term_le (Sr Sz a b : ℝ) (hSr : 0 < Sr) (hSz : 0 < Sz) :
    Real.exp a / Sr - Real.exp b / Sz
      ≤ (Real.exp a / Sr) * (Real.log (Real.exp a / Sr) - (b - Real.log Sz)) := by
  set p := Real.exp a / Sr with hp
  set q := Real.exp b / Sz with hq
  have hp0 : 0 < p := by positivity
  have hq0 : 0 < q := by positivity
  have hlogq : Real.log q = b - Real.log Sz := by
    rw [hq, Real.log_div (Real.exp_ne_zero b) (ne_of_gt hSz), Real.log_exp]
  rw [← hlogq]
  have hlog : Real.log (q / p) ≤ q / p - 1 := Real.log_le_sub_one_of_pos (by positivity)
  rw [Real.log_div (ne_of_gt hq0) (ne_of_gt hp0)] at hlog
  have := mul_le_mul_of_nonneg_left hlog (le_of_lt hp0)
  have hpq : p * (q / p - 1) = q - p := by field_simp
  nlinarith

/-- Fusing the three elementwise maps of the per-position KL into a single
`zipWith` over the two raw logits rows. -/
theorem kl_row_fused (Sr Sz : ℝ) (rs zs : List ℝ) :
    (List.zipWith (fun a b => a * b) (rs.map (fun x => Real.exp x / Sr))
        (List.zipWith (fun a b => a - b)
          ((rs.map (fun x => Real.exp x / Sr)).map Real.log)
          (zs.map (fun x => x - Real.log Sz)))).sum
      = (List.zipWith (fun a b =>
          (Real.exp a / Sr) * (Real.log (Real.exp a / Sr) - (b - Real.log Sz)))
          rs zs).sum := by
  induction rs generalizing zs with
  | nil => simp
  | cons r rtl ih =>
    cases zs with
    | nil => simp
    | cons z ztl =>
      simp only [List.map_cons, List.zipWith_cons_cons, List.sum_cons]
      rw [ih ztl]

/-- Gibbs' inequality for one sequence position: the per-position KL
divergence computed by the aligner (reference softmax times the difference of
reference log-probabilities and policy log-softmax, summed over the
vocabulary) is nonnegative whenever the two vocab rows have equal length. -/
theorem kl_row_nonneg (rs zs : List ℝ) (hlen : rs.length = zs.length) :
    0 ≤ (List.zipWith (fun a b => a * b) (softmaxRow rs)
          (List.zipWith (fun a b => a - b) ((softmaxRow rs).map Real.log)
            (log_softmaxRow zs))).sum := by
  cases rs with
  | nil => simp [softmaxRow]
  | cons r0 rtl =>
    cases zs with
    | nil => simp at hlen
    | cons z0 ztl =>
      set rs := r0 :: rtl
      set zs := z0 :: ztl
      set Sr := (rs.map Real.exp).sum with hSrdef
      set Sz := (zs.map Real.exp).sum with hSzdef
      have hSr : 0 < Sr := by
        refine List.sum_pos _ (fun x hx => ?_) (by simp [rs])
        obtain ⟨y, _, rfl⟩ := List.mem_map.mp hx
        exact Real.exp_pos y
      have hSz : 0 < Sz := by
        refine List.sum_pos _ (fun x hx => ?_) (by simp [zs])
        obtain ⟨y, _, rfl⟩ := List.mem_map.mp hx
        exact Real.exp_pos y
      have hsm : softmaxRow rs = rs.map (fun x => Real.exp x / Sr) := rfl
      have hls : log_softmaxRow zs = zs.map (fun x => x - Real.log Sz) := rfl
      rw [hsm, hls, kl_row_fused Sr Sz rs zs]
      have hge := sum_zipWith_le
        (fun a b => Real.exp a / Sr - Real.exp b / Sz)
        (fun a b => (Real.exp a / Sr) * (Real.log (Real.exp a / Sr) - (b - Real.log Sz)))
        (fun a b => gibbs_term_le Sr Sz a b hSr hSz) rs zs
      have hsub := sum_zipWith_sub (fun a => Real.exp a / Sr)
        (fun b => Real.exp b / Sz) rs zs hlen
      rw [hsub, sum_map_exp_div rs Sr, sum_map_exp_div zs Sz, ← hSrdef, ← hSzdef,
        div_self (ne_of_gt hSr), div_self (ne_of_gt hSz)] at hge
      linarith [hge]

/-- Batch output at index `b` is `row_core` of the shifted row `b`. -/
theorem tdpo_getD (lo ref : List (List (List ℝ))) (la : List (List ℤ)) (avg : Bool)
    (b : ℕ) (hlo : b < lo.length) (href : b < ref.length) (hla : b < la.length) :
    (tdpo_get_batch_logps lo ref la avg).1.getD b 0
        = (row_core ((lo.get ⟨b, hlo⟩).dropLast) ((ref.get ⟨b, href⟩).dropLast)
            ((la.get ⟨b, hla⟩).drop 1) avg).1
      ∧ (tdpo_get_batch_logps lo ref la avg).2.1.getD b 0
        = (row_core ((lo.get ⟨b, hlo⟩).dropLast) ((ref.get ⟨b, href⟩).dropLast)
            ((la.get ⟨b, hla⟩).drop 1) avg).2.1
      ∧ (tdpo_get_batch_logps lo ref la avg).2.2.getD b 0
        = (row_core ((lo.get ⟨b, hlo⟩).dropLast) ((ref.get ⟨b, href⟩).dropLast)
            ((la.get ⟨b, hla⟩).drop 1) avg).2.2 := by
  have hlen : b < (List.zipWith
      (fun (p : List (List ℝ) × List (List ℝ)) lab =>
        row_core p.1 p.2 lab avg)
      ((lo.map List.dropLast).zip (ref.map List.dropLast))
      (la.map (List.drop 1))).length := by
    simp [List.length_zipWith, List.length_zip]
    omega
  refine ⟨?_, ?_, ?_⟩ <;>
  · show (List.map _ _).getD b 0 = _
    rw [List.getD_eq_getElem _ _ (by simpa using hlen)]
    simp [List.getElem_zipWith, List.getElem_zip, List.get_eq_getElem]

/-- A sum of mask-gated terms over an all-false mask is zero. -/
theorem sum_zipWith_bmul_false (ms : List Bool) (xs : List ℝ)
    (h : ∀ m ∈ ms, m = false) : (List.zipWith bmul ms xs).sum = 0 := by
  induction ms generalizing xs with
  | nil => simp
  | cons m ms ih =>
    cases xs with
    | nil => simp
    | cons x xs =>
      have hm : m = false := h m (List.mem_cons_self m ms)
      simp [List.zipWith, bmul, hm,
        ih xs (fun m2 hm2 => h m2 (List.mem_cons_of_mem _ hm2))]

/-- `row_core` on an all-sentinel (fully masked) shifted label row: the three
sum-aggregated outputs are exactly 0, and the divisor used by the averaging
path, `loss_mask.sum`, is 0. -/
theorem row_core_all_masked (logits reference_logits : List (List ℝ))
    (labels0 : List ℤ) (hall : ∀ l ∈ labels0, l = -100) :
    row_core logits reference_logits labels0 false = (0, 0, 0)
      ∧ mask_sum (loss_mask_row labels0) = 0 := by
  have hfalse : ∀ m ∈ loss_mask_row labels0, m = false := by
    intro m hm
    simp only [loss_mask_row] at hm
    obtain ⟨l, hl, rfl⟩ := List.mem_map.mp hm
    simp [hall l hl]
  constructor
  · simp only [row_core]
    refine Prod.ext ?_ (Prod.ext ?_ ?_) <;>
      simp [sum_zipWith_bmul_false _ _ hfalse]
  · unfold mask_sum
    rw [List.sum_eq_zero]
    intro x hx
    obtain ⟨m, hm, rfl⟩ := List.mem_map.mp hx
    simp [hfalse m hm]

/-- The mask-gated per-position KL sum computed by `row_core` (sum
aggregation) is nonnegative whenever the reference and policy vocab rows have
matching lengths. -/
theorem row_core_kl_nonneg (logits reference_logits : List (List ℝ))
    (labels0 : List ℤ)
    (hlen : ∀ r ∈ reference_logits, ∀ z ∈ logits, r.length = z.length) :
    0 ≤ (row_core logits reference_logits labels0 false).2.1 := by
  show 0 ≤ (List.zipWith bmul (loss_mask_row labels0)
    (List.zipWith (fun ps diffs => (List.zipWith (fun a b => a * b) ps diffs).sum)
      (reference_logits.map softmaxRow)
      (List.zipWith (List.zipWith (fun a b => a - b))
        ((reference_logits.map softmaxRow).map (List.map Real.log))
        (logits.map log_softmaxRow)))).sum
  rw [List.map_map,
    List.zipWith_map (List.zipWith (fun a b => a - b))
      (List.map Real.log ∘ softmaxRow) log_softmaxRow reference_logits logits,
    zipWith_map_left_zipWith
      (fun ps diffs => (List.zipWith (fun a b => a * b) ps diffs).sum)
      softmaxRow
      (fun r z => List.zipWith (fun a b => a - b)
        ((List.map Real.log ∘ softmaxRow) r) (log_softmaxRow z))
      reference_logits logits]
  refine List.sum_nonneg ?_
  intro x hx
  obtain ⟨m, k, _, hk, rfl⟩ := mem_zipWith hx
  have hk0 : 0 ≤ k := by
    obtain ⟨r, z, hr, hz, rfl⟩ := mem_zipWith hk
    simp only [Function.comp]
    exact kl_row_nonneg r z (hlen r hr z hz)
  unfold bmul
  split
  · exact hk0
  · exact le_refl 0

/-- At `alpha = 1` the V1 loss and the detachment-free V2 loss have the same
forward value at every batch index. -/
theorem loss_val_eq_alpha_one (beta : ℝ) (cm rm ck rk : List D) (i : ℕ) :
    ((TDPO1.loss beta cm rm ck rk).1.getD i D0).val
      = ((TDPO2.loss_without_detach 1 beta cm rm ck rk).1.getD i D0).val := by
  by_cases h : i < (TDPO1.loss beta cm rm ck rk).1.length
  · have h2 : i < (TDPO2.loss_without_detach 1 beta cm rm ck rk).1.length := by
      simp only [TDPO1.loss, TDPO2.loss_without_detach, List.length_map,
        List.length_zipWith] at h ⊢
      omega
    rw [List.getD_eq_getElem _ _ h, List.getD_eq_getElem _ _ h2]
    simp only [TDPO1.loss, TDPO2.loss_without_detach, List.getElem_map,
      List.getElem_zipWith, D.logsigmoid_val, D.neg_val, D.smul_val, D.sub_val,
      D.detach_val]
    ring_nf
  · have h2 : ¬ i < (TDPO2.loss_without_detach 1 beta cm rm ck rk).1.length := by
      simp only [TDPO1.loss, TDPO2.loss_without_detach, List.length_map,
        List.length_zipWith] at h ⊢
      omega
    rw [List.getD_eq_default _ _ (by omega), List.getD_eq_default _ _ (by omega)]

/-- Claim C1: for every input vector set of equal length N and positive beta,
the V1 loss equals `-logsigmoid (beta * ((chosen_margin - rejected_margin) -
(rejected_kl - chosen_kl)))` elementwise, and the returned rewards equal
`beta * (chosen_margin + chosen_kl)` and `beta * (rejected_margin +
rejected_kl)`, both with zero gradient (computed without gradient
tracking). -/
theorem claim_C1 (beta : ℝ) (hbeta : 0 < beta) (cm rm ck rk : List D) (N i : ℕ)
    (hcm : cm.length = N) (hrm : rm.length = N) (hck : ck.length = N)
    (hrk : rk.length = N) (hi : i < N) :
    ((TDPO1.loss beta cm rm ck rk).1.getD i D0).val
        = -F.logsigmoid (beta * (((cm.getD i D0).val - (rm.getD i D0).val)
            - ((rk.getD i D0).val - (ck.getD i D0).val)))
      ∧ ((TDPO1.loss beta cm rm ck rk).2.1.getD i D0).val
          = beta * ((cm.getD i D0).val + (ck.getD i D0).val)
      ∧ ((TDPO1.loss beta cm rm ck rk).2.1.getD i D0).grad = 0
      ∧ ((TDPO1.loss beta cm rm ck rk).2.2.getD i D0).val
          = beta * ((rm.getD i D0).val + (rk.getD i D0).val)
      ∧ ((TDPO1.loss beta cm rm ck rk).2.2.getD i D0).grad = 0 := by
  have hcm' : i < cm.length := by omega
  have hrm' : i < rm.length := by omega
  have hck' : i < ck.length := by omega
  have hrk' : i < rk.length := by omega
  have h1 : i < (TDPO1.loss beta cm rm ck rk).1.length := by
    simp [TDPO1.loss]; omega
  have h2 : i < (TDPO1.loss beta cm rm ck rk).2.1.length := by
    simp [TDPO1.loss]; omega
  have h3 : i < (TDPO1.loss beta cm rm ck rk).2.2.length := by
    simp [TDPO1.loss]; omega
  rw [List.getD_eq_getElem _ _ h1, List.getD_eq_getElem _ _ h2,
      List.getD_eq_getElem _ _ h3, List.getD_eq_getElem _ _ hcm',
      List.getD_eq_getElem _ _ hrm', List.getD_eq_getElem _ _ hck',
      List.getD_eq_getElem _ _ hrk']
  simp only [TDPO1.loss, List.getElem_map, List.getElem_zipWith,
    D.logsigmoid_val, D.logsigmoid_grad, D.neg_val, D.neg_grad, D.smul_val,
    D.smul_grad, D.sub_val, D.sub_grad, D.add_val, D.add_grad, D.detach_val,
    D.detach_grad]
  refine ⟨?_, ?_, ?_, ?_, ?_⟩ <;> first | trivial | ring

theorem claim_C1_witness :
    (0:ℝ) < 1
      ∧ (((TDPO1.loss 1 [⟨1, 2⟩] [⟨3, 4⟩] [⟨5, 6⟩] [⟨7, 8⟩]).1.getD 0 D0).val
          = -F.logsigmoid (1 * ((([(⟨1, 2⟩ : D)].getD 0 D0).val
              - ([(⟨3, 4⟩ : D)].getD 0 D0).val)
            - (([(⟨7, 8⟩ : D)].getD 0 D0).val - ([(⟨5, 6⟩ : D)].getD 0 D0).val)))
        ∧ ((TDPO1.loss 1 [⟨1, 2⟩] [⟨3, 4⟩] [⟨5, 6⟩] [⟨7, 8⟩]).2.1.getD 0 D0).val
            = 1 * (([(⟨1, 2⟩ : D)].getD 0 D0).val + ([(⟨5, 6⟩ : D)].getD 0 D0).val)
        ∧ ((TDPO1.loss 1 [⟨1, 2⟩] [⟨3, 4⟩] [⟨5, 6⟩] [⟨7, 8⟩]).2.1.getD 0 D0).grad = 0
        ∧ ((TDPO1.loss 1 [⟨1, 2⟩] [⟨3, 4⟩] [⟨5, 6⟩] [⟨7, 8⟩]).2.2.getD 0 D0).val
            = 1 * (([(⟨3, 4⟩ : D)].getD 0 D0).val + ([(⟨7, 8⟩ : D)].getD 0 D0).val)
        ∧ ((TDPO1.loss 1 [⟨1, 2⟩] [⟨3, 4⟩] [⟨5, 6⟩] [⟨7, 8⟩]).2.2.getD 0 D0).grad = 0) :=
  ⟨one_pos,
   claim_C1 1 one_pos [⟨1, 2⟩] [⟨3, 4⟩] [⟨5, 6⟩] [⟨7, 8⟩] 1 0
     rfl rfl rfl rfl (by decide)⟩

/-- Claim C2: in the V2 loss the logit equals
`margin_diff - alpha * (rejected_kl - stopgrad chosen_kl)`: (a) for every
batch in which the forward-mode seed direction is `chosen_kl` (the margin and
rejected-KL inputs carry derivative 0 while `chosen_kl` carries arbitrary
derivatives), every V2 loss entry has derivative 0; and (b) for every scalar
input the loss value is
`-logsigmoid (beta * ((cm - rm) - alpha * (rk - ck)))`. -/
theorem claim_C2 (alpha beta : ℝ) :
    (∀ (cm rm ck rk : List D),
      (∀ a ∈ cm, a.grad = 0) → (∀ a ∈ rm, a.grad = 0) → (∀ a ∈ rk, a.grad = 0) →
      ∀ l ∈ (TDPO2.loss alpha beta cm rm ck rk).1, l.grad = 0)
    ∧ ∀ cmv rmv ckv rkv g : ℝ,
      ((TDPO2.loss alpha beta [⟨cmv, 0⟩] [⟨rmv, 0⟩] [⟨ckv, g⟩] [⟨rkv, 0⟩]).1.getD 0 D0).val
        = -F.logsigmoid (beta * ((cmv - rmv) - alpha * (rkv - ckv))) := by
  constructor
  · intro cm rm ck rk hcm hrm hrk l hl
    have hl2 : l ∈ (List.zipWith (· - ·)
        (List.zipWith (· - ·) cm rm)
        ((List.zipWith (· - ·) rk (ck.map D.detach)).map (D.smul alpha))).map
          (fun x => -(D.logsigmoid (D.smul beta x))) := hl
    obtain ⟨x, hx, rfl⟩ := List.mem_map.mp hl2
    obtain ⟨a, y, ha, hy, rfl⟩ := mem_zipWith hx
    obtain ⟨c, r, hc, hr, rfl⟩ := mem_zipWith ha
    obtain ⟨y2, hy2, rfl⟩ := List.mem_map.mp hy
    obtain ⟨k, d, hk, hd, rfl⟩ := mem_zipWith hy2
    obtain ⟨d2, hd2, rfl⟩ := List.mem_map.mp hd
    simp [D.logsigmoid_grad, D.neg_grad, D.smul_grad, D.sub_grad, D.detach_grad,
      hcm c hc, hrm r hr, hrk k hk]
  · intro cmv rmv ckv rkv g
    show (-(D.logsigmoid (D.smul beta ((⟨cmv, (0 : ℝ)⟩ - ⟨rmv, 0⟩)
        - D.smul alpha ((⟨rkv, (0 : ℝ)⟩ : D) - D.detach ⟨ckv, g⟩))))).val
      = -F.logsigmoid (beta * ((cmv - rmv) - alpha * (rkv - ckv)))
    rfl

theorem claim_C2_witness :
    (∀ l ∈ (TDPO2.loss 2 3 [⟨1, 0⟩] [⟨2, 0⟩] [⟨4, 5⟩] [⟨6, 0⟩]).1, l.grad = 0)
      ∧ ((TDPO2.loss 2 3 [⟨1, 0⟩] [⟨2, 0⟩] [⟨4, 5⟩] [⟨6, 0⟩]).1.getD 0 D0).val
          = -F.logsigmoid (3 * ((1 - 2) - 2 * (6 - 4))) :=
  ⟨(claim_C2 2 3).1 [⟨1, 0⟩] [⟨2, 0⟩] [⟨4, 5⟩] [⟨6, 0⟩]
      (by intro a ha
          simp only [List.mem_singleton] at ha
          subst ha
          rfl)
      (by intro a ha
          simp only [List.mem_singleton] at ha
          subst ha
          rfl)
      (by intro a ha
          simp only [List.mem_singleton] at ha
          subst ha
          rfl),
   (claim_C2 2 3).2 1 2 4 6 5⟩

/-- Claim C3: the three aligner outputs depend only on label positions 1..L-1
and logits positions 0..L-2: any two inputs that agree on `labels[:, 1:]`,
`policy_logits[:, :-1, :]` and `reference_logits[:, :-1, :]` produce
identical `(logps_margin, position_kl, logps)`. -/
theorem claim_C3 (lo1 lo2 ref1 ref2 : List (List (List ℝ))) (la1 la2 : List (List ℤ))
    (avg : Bool)
    (hlo : lo1.map List.dropLast = lo2.map List.dropLast)
    (href : ref1.map List.dropLast = ref2.map List.dropLast)
    (hla : la1.map (List.drop 1) = la2.map (List.drop 1)) :
    tdpo_get_batch_logps lo1 ref1 la1 avg = tdpo_get_batch_logps lo2 ref2 la2 avg := by
  unfold tdpo_get_batch_logps
  rw [hlo, href, hla]

theorem claim_C3_witness :
    ([[[(1 : ℝ), 2], [3, 4]]].map List.dropLast
        = [[[(1 : ℝ), 2], [9, 9]]].map List.dropLast)
      ∧ ([[[(0 : ℝ), 0], [1, 1]]].map List.dropLast
        = [[[(0 : ℝ), 0], [2, 2]]].map List.dropLast)
      ∧ ([[(7 : ℤ), 0]].map (List.drop 1) = [[(5 : ℤ), 0]].map (List.drop 1))
      ∧ tdpo_get_batch_logps [[[1, 2], [3, 4]]] [[[0, 0], [1, 1]]] [[7, 0]] false
        = tdpo_get_batch_logps [[[1, 2], [9, 9]]] [[[0, 0], [2, 2]]] [[5, 0]] false :=
  ⟨rfl, rfl, rfl,
   claim_C3 [[[1, 2], [3, 4]]] [[[1, 2], [9, 9]]] [[[0, 0], [1, 1]]]
     [[[0, 0], [2, 2]]] [[7, 0]] [[5, 0]] false rfl rfl rfl⟩

/-- Claim C4: for a sequence whose shifted labels are entirely the sentinel
-100, the sum-aggregated aligner outputs are exactly 0 (no NaN can arise: the
sums are sums of zeros), while the averaging path would divide by
`loss_mask.sum`, which is 0 for such a sequence (division by zero, unguarded
in the code). -/
theorem claim_C4 (lo ref : List (List (List ℝ))) (la : List (List ℤ)) (b : ℕ)
    (hlo : b < lo.length) (href : b < ref.length) (hla : b < la.length)
    (hall : ∀ l ∈ (la.get ⟨b, hla⟩).drop 1, l = -100) :
    (tdpo_get_batch_logps lo ref la false).1.getD b 0 = 0
      ∧ (tdpo_get_batch_logps lo ref la false).2.1.getD b 0 = 0
      ∧ (tdpo_get_batch_logps lo ref la false).2.2.getD b 0 = 0
      ∧ mask_sum (loss_mask_row ((la.get ⟨b, hla⟩).drop 1)) = 0 := by
  obtain ⟨h1, h2, h3⟩ := tdpo_getD lo ref la false b hlo href hla
  obtain ⟨hrow, hmask⟩ := row_core_all_masked ((lo.get ⟨b, hlo⟩).dropLast)
    ((ref.get ⟨b, href⟩).dropLast) ((la.get ⟨b, hla⟩).drop 1) hall
  rw [h1, h2, h3, hrow]
  exact ⟨rfl, rfl, rfl, hmask⟩

theorem claim_C4_witness :
    (tdpo_get_batch_logps [[[1, 2], [3, 4]]] [[[0, 1], [2, 3]]]
        [[-100, -100]] false).1.getD 0 0 = 0
      ∧ (tdpo_get_batch_logps [[[1, 2], [3, 4]]] [[[0, 1], [2, 3]]]
          [[-100, -100]] false).2.1.getD 0 0 = 0
      ∧ (tdpo_get_batch_logps [[[1, 2], [3, 4]]] [[[0, 1], [2, 3]]]
          [[-100, -100]] false).2.2.getD 0 0 = 0
      ∧ mask_sum (loss_mask_row [(-100 : ℤ)]) = 0 :=
  claim_C4 [[[1, 2], [3, 4]]] [[[0, 1], [2, 3]]] [[-100, -100]] 0
    (by decide) (by decide) (by decide) (by decide)

/-- Claim C5: the reward accuracy at index `i` is 1 exactly when
`reward_chosen[i] > reward_rejected[N-1-i]`: the rejected-reward index is
reversed by `flip(dims=[0])`, so entry 0 compares chosen reward 0 with
rejected reward N-1. -/
theorem claim_C5 (c r : List ℝ) (N i : ℕ) (hc : c.length = N) (hr : r.length = N)
    (hi : i < N) :
    ((TDPO1.reward_accuracies c r).getD i 0 = 1
        ↔ r.getD (N - 1 - i) 0 < c.getD i 0)
      ∧ (TDPO1.reward_accuracies c r).getD i 0
          = (if r.getD (N - 1 - i) 0 < c.getD i 0 then (1 : ℝ) else 0) := by
  subst hr
  have hc' : i < c.length := by omega
  have hr' : r.length - 1 - i < r.length := by omega
  have hlen : i < (TDPO1.reward_accuracies c r).length := by
    simp [TDPO1.reward_accuracies, List.length_zipWith]
    omega
  have hval : (TDPO1.reward_accuracies c r).getD i 0
      = (if r.getD (r.length - 1 - i) 0 < c.getD i 0 then (1 : ℝ) else 0) := by
    rw [List.getD_eq_getElem _ _ hlen, List.getD_eq_getElem _ _ hc',
        List.getD_eq_getElem _ _ hr']
    simp only [TDPO1.reward_accuracies, List.getElem_zipWith, List.getElem_reverse]
  refine ⟨?_, hval⟩
  rw [hval]
  split_ifs with h
  · exact iff_of_true rfl h
  · exact iff_of_false (by norm_num) h

theorem claim_C5_witness :
    ((TDPO1.reward_accuracies [10, 20, 30, 40] [1, 2, 3, 35]).getD 0 0 = 1
        ↔ ([(1 : ℝ), 2, 3, 35]).getD (4 - 1 - 0) 0 < ([(10 : ℝ), 20, 30, 40]).getD 0 0)
      ∧ (TDPO1.reward_accuracies [10, 20, 30, 40] [1, 2, 3, 35]).getD 0 0
          = (if ([(1 : ℝ), 2, 3, 35]).getD (4 - 1 - 0) 0
                < ([(10 : ℝ), 20, 30, 40]).getD 0 0 then (1 : ℝ) else 0) :=
  claim_C5 [10, 20, 30, 40] [1, 2, 3, 35] 4 0 rfl rfl (by decide)

/-- Claim C6: the aligner requires
`policy_logits.shape[:-1] == labels.shape == reference_logits.shape[:-1]`;
when the precondition fails it fails fast with a `ShapeError`, and when it
holds it returns three vectors of length `batch`. -/
theorem claim_C6 (logits reference_logits : List (List (List ℝ)))
    (labels : List (List ℤ)) (avg : Bool) :
    (¬ (shape_matches logits labels && shape_matches reference_logits labels) = true →
      tdpo_get_batch_logps_checked logits reference_logits labels avg
        = Except.error ShapeError.mk)
    ∧ ((shape_matches logits labels && shape_matches reference_logits labels) = true →
      ∃ m k l, tdpo_get_batch_logps_checked logits reference_logits labels avg
          = Except.ok (m, k, l)
        ∧ m.length = labels.length ∧ k.length = labels.length
        ∧ l.length = labels.length) := by
  constructor
  · intro h
    simp [tdpo_get_batch_logps_checked, h]
  · intro h
    have h' := h
    simp only [shape_matches, Bool.and_eq_true, beq_iff_eq, List.all_eq_true] at h'
    have hlo : logits.length = labels.length := h'.1.1
    have href : reference_logits.length = labels.length := h'.2.1
    refine ⟨(tdpo_get_batch_logps logits reference_logits labels avg).1,
            (tdpo_get_batch_logps logits reference_logits labels avg).2.1,
            (tdpo_get_batch_logps logits reference_logits labels avg).2.2,
            by simp [tdpo_get_batch_logps_checked, h], ?_, ?_, ?_⟩ <;>
      · simp [tdpo_get_batch_logps, tdpo_core, List.length_zipWith, hlo, href]

theorem claim_C6_witness :
    tdpo_get_batch_logps_checked [[[(1 : ℝ), 2], [3, 4]]] [[[5, 6], [7, 8]]] [] false
        = Except.error ShapeError.mk
      ∧ ∃ m k l,
        tdpo_get_batch_logps_checked [[[(1 : ℝ), 2], [3, 4]]] [[[5, 6], [7, 8]]]
            [[0, 1]] false
          = Except.ok (m, k, l)
        ∧ m.length = [[(0 : ℤ), 1]].length ∧ k.length = [[(0 : ℤ), 1]].length
        ∧ l.length = [[(0 : ℤ), 1]].length :=
  ⟨(claim_C6 [[[(1 : ℝ), 2], [3, 4]]] [[[5, 6], [7, 8]]] [] false).1 (by decide),
   (claim_C6 [[[(1 : ℝ), 2], [3, 4]]] [[[5, 6], [7, 8]]] [[0, 1]] false).2 (by decide)⟩

/-- Claim C7: the V1 loss is strictly decreasing in `chosen_margin`: for every
fixed `rejected_margin`, `chosen_kl`, `rejected_kl` and positive `beta`, if
`cm < cm'` then the loss at `cm'` is strictly below the loss at `cm`. -/
theorem claim_C7 (beta cm cm' rm ck rk : ℝ) (hbeta : 0 < beta) (h : cm < cm') :
    ((TDPO1.loss beta [⟨cm', 0⟩] [⟨rm, 0⟩] [⟨ck, 0⟩] [⟨rk, 0⟩]).1.getD 0 D0).val
      < ((TDPO1.loss beta [⟨cm, 0⟩] [⟨rm, 0⟩] [⟨ck, 0⟩] [⟨rk, 0⟩]).1.getD 0 D0).val := by
  show -F.logsigmoid (beta * ((cm' - rm) - (rk - ck)))
      < -F.logsigmoid (beta * ((cm - rm) - (rk - ck)))
  have := F.logsigmoid_strictMono
    (show beta * ((cm - rm) - (rk - ck)) < beta * ((cm' - rm) - (rk - ck)) by
      apply mul_lt_mul_of_pos_left _ hbeta
      linarith)
  linarith

theorem claim_C7_witness :
    (0:ℝ) < 1 ∧ (0:ℝ) < 1
      ∧ ((TDPO1.loss 1 [⟨1, 0⟩] [⟨0, 0⟩] [⟨0, 0⟩] [⟨0, 0⟩]).1.getD 0 D0).val
        < ((TDPO1.loss 1 [⟨0, 0⟩] [⟨0, 0⟩] [⟨0, 0⟩] [⟨0, 0⟩]).1.getD 0 D0).val :=
  ⟨one_pos, one_pos, claim_C7 1 0 1 0 0 0 one_pos one_pos⟩

/-- Claim C8 counterexample: the claim asserts there exist inputs on which the
V1 forward loss value and the V2 forward loss value (with `alpha = 1` and the
detachment removed) differ.  In fact no such input exists: with `alpha = 1`
the two formulas compute identical forward values at every index of every
batch. -/
theorem claim_C8_counterexample :
    ¬ ∃ (cm rm ck rk : List D) (beta : ℝ) (i : ℕ),
      ((TDPO1.loss beta cm rm ck rk).1.getD i D0).val
        ≠ ((TDPO2.loss_without_detach 1 beta cm rm ck rk).1.getD i D0).val := by
  push_neg
  intro cm rm ck rk beta i
  exact loss_val_eq_alpha_one beta cm rm ck rk i

/-- Claim C8 (amended): with `alpha = 1` and the detachment removed, the V1
and V2 forward loss values coincide on every input (the two formulas are
forward-identical at `alpha = 1`); the variants genuinely differ only through
the `alpha` scaling and the detachment: with the detachment present (the real
V2), the gradient of the V2 loss differs from the V1 gradient at concrete
inputs. -/
theorem claim_C8 :
    (∀ (cm rm ck rk : List D) (beta : ℝ) (i : ℕ),
      ((TDPO1.loss beta cm rm ck rk).1.getD i D0).val
        = ((TDPO2.loss_without_detach 1 beta cm rm ck rk).1.getD i D0).val)
    ∧ ((TDPO1.loss 1 [⟨0, 0⟩] [⟨0, 0⟩] [⟨0, 1⟩] [⟨0, 0⟩]).1.getD 0 D0).grad
        ≠ ((TDPO2.loss 1 1 [⟨0, 0⟩] [⟨0, 0⟩] [⟨0, 1⟩] [⟨0, 0⟩]).1.getD 0 D0).grad := by
  constructor
  · intro cm rm ck rk beta i
    exact loss_val_eq_alpha_one beta cm rm ck rk i
  · show -((1 - sigmoid ((1 : ℝ) * ((0 - 0) - (0 - 0)))) * (1 * ((0 - 0) - (0 - 1))))
        ≠ -((1 - sigmoid ((1 : ℝ) * ((0 - 0) - 1 * (0 - 0)))) * (1 * ((0 - 0) - 1 * (0 - 0))))
    have hs : sigmoid 0 = 1 / 2 := by
      unfold sigmoid
      rw [neg_zero, Real.exp_zero]
      norm_num
    norm_num [hs]

/-- Claim C9: `TDPO1Model.forward` ignores its `average_log_prob` parameter:
the internal aligner call hardcodes `average_log_prob=False`, so the outputs
are identical whatever the caller passes. -/
theorem claim_C9 (all_logits reference_all_logits : List (List (List ℝ)))
    (labels : List (List ℤ)) (n_chosen : ℕ) (b1 b2 : Bool) :
    TDPO1.forward all_logits reference_all_logits labels n_chosen b1
      = TDPO1.forward all_logits reference_all_logits labels n_chosen b2 := rfl

/-- Claim C10: under exact real arithmetic, every entry of the sum-aggregated
`position_kl` output is nonnegative (Gibbs' inequality applied per position,
then a mask-weighted sum of nonnegative terms), for rectangular inputs whose
vocab rows all have length V. -/
theorem claim_C10 (lo ref : List (List (List ℝ))) (la : List (List ℤ)) (V : ℕ)
    (hlo : ∀ row ∈ lo, ∀ vr ∈ row, vr.length = V)
    (href : ∀ row ∈ ref, ∀ vr ∈ row, vr.length = V) :
    ∀ x ∈ (tdpo_get_batch_logps lo ref la false).2.1, 0 ≤ x := by
  intro x hx
  have hx' : x ∈ (List.zipWith
      (fun (p : List (List ℝ) × List (List ℝ)) lab => row_core p.1 p.2 lab false)
      ((lo.map List.dropLast).zip (ref.map List.dropLast))
      (la.map (List.drop 1))).map (fun r => r.2.1) := hx
  obtain ⟨rcore, hrc, rfl⟩ := List.mem_map.mp hx'
  obtain ⟨p, lab, hp, _, rfl⟩ := mem_zipWith hrc
  obtain ⟨hp1, hp2⟩ := List.of_mem_zip hp
  obtain ⟨l1, hl1, hp1eq⟩ := List.mem_map.mp hp1
  obtain ⟨r1, hr1, hp2eq⟩ := List.mem_map.mp hp2
  rw [← hp1eq, ← hp2eq]
  refine row_core_kl_nonneg l1.dropLast r1.dropLast lab ?_
  intro r hr z hz
  rw [href r1 hr1 r (List.dropLast_subset r1 hr),
      hlo l1 hl1 z (List.dropLast_subset l1 hz)]

theorem claim_C10_witness :
    (∀ row ∈ [[[(0 : ℝ), 0], [1, 2]]], ∀ vr ∈ row, vr.length = 2)
      ∧ (∀ row ∈ [[[(0 : ℝ), 1], [3, 4]]], ∀ vr ∈ row, vr.length = 2)
      ∧ ∀ x ∈ (tdpo_get_batch_logps [[[0, 0], [1, 2]]] [[[0, 1], [3, 4]]]
          [[1, 0]] false).2.1, 0 ≤ x :=
  ⟨by intro row hrow vr hvr
      simp only [List.mem_singleton] at hrow
      subst hrow
      rcases List.mem_cons.mp hvr with h | h
      · simp [h]
      · simp only [List.mem_singleton] at h
        simp [h],
   by intro row hrow vr hvr
      simp only [List.mem_singleton] at hrow
      subst hrow
      rcases List.mem_cons.mp hvr with h | h
      · simp [h]
      · simp only [List.mem_singleton] at h
        simp [h],
   claim_C10 [[[0, 0], [1, 2]]] [[[0, 1], [3, 4]]] [[1, 0]] 2
     (by intro row hrow vr hvr
         simp only [List.mem_singleton] at hrow
         subst hrow
         rcases List.mem_cons.mp hvr with h | h
         · simp [h]
         · simp only [List.mem_singleton] at h
           simp [h])
     (by intro row hrow vr hvr
         simp only [List.mem_singleton] at hrow
         subst hrow
         rcases List.mem_cons.mp hvr with h | h
         · simp [h]
         · simp only [List.mem_singleton] at h
           simp [h])⟩
